import Mathlib

/-!
# Verification of the kubebuilder plugin/scaffolding core

A shallow embedding of the plugin-resolution, CLI-binding, marker-insertion
and project-configuration code of the repository, together with theorems
settling the specification's testable properties against it.

Conventions:
* Go strings are Lean `String`s; byte-level operations are carried out on
  `String.data` (`List Char`), which is faithful for the ASCII data the
  code manipulates.
* Fallible Go functions return `Except String` (the `String` being the
  formatted error message) or `Option`; a Go `panic`/`log.Fatal` is the
  `none` case of an outer `Option` where it can occur.
* Go maps are represented as association lists; where Go's random map
  iteration order matters the theorems quantify over single-entry maps,
  and where Go sorts map keys (`encoding/json`, `fmt` of maps) the model
  sorts explicitly.
-/

namespace KB

/-! ## Character/string primitives (Go `strings`/`bufio` counterparts) -/

/-- Go `unicode.IsSpace` (the white-space set used by `strings.TrimSpace`). -/
def goIsSpace (c : Char) : Bool :=
  c == ' ' || c == '\t' || c == '\n' || c.val == 0x0B || c.val == 0x0C ||
  c == '\r' || c.val == 0x85 || c.val == 0xA0 || c.val == 0x1680 ||
  (0x2000 ≤ c.val && c.val ≤ 0x200A) || c.val == 0x2028 || c.val == 0x2029 ||
  c.val == 0x202F || c.val == 0x205F || c.val == 0x3000

/-- Drop trailing white space of a character list. -/
def dropTailWS (cs : List Char) : List Char :=
  (cs.reverse.dropWhile goIsSpace).reverse

/-- Trim white space from both ends of a character list. -/
def trimChars (cs : List Char) : List Char :=
  (dropTailWS cs).dropWhile goIsSpace

/-- Go `strings.TrimSpace`. -/
def trimSpace (s : String) : String := String.mk (trimChars s.data)

/-- Split a character list at every occurrence of `sep` (Go `strings.Split`).
An empty input yields one empty piece, like Go. -/
def splitOnSep (sep : Char) : List Char → List (List Char)
  | [] => [[]]
  | c :: rest =>
    if c == sep then [] :: splitOnSep sep rest
    else
      match splitOnSep sep rest with
      | l :: ls => (c :: l) :: ls
      | [] => [[c]]

/-- Join character-list pieces with a separator (Go `strings.Join`). -/
def joinWithSep (sep : Char) : List (List Char) → List Char
  | [] => []
  | [l] => l
  | l :: ls => l ++ sep :: joinWithSep sep ls

/-- Split at the first occurrence of `sep`: the part before it and,
if present, the part after it (Go `strings.SplitN(s, sep, 2)`). -/
def breakAtSep (sep : Char) (cs : List Char) : List Char × Option (List Char) :=
  match splitOnSep sep cs with
  | [] => (cs, none)
  | [l] => (l, none)
  | l :: ls => (l, some (joinWithSep sep ls))

/-! ## Tolerant semantic versions (`blang/semver` v3.5.1) -/

/-- A parsed semantic version.  Build metadata is validated during parsing
but not stored because `semver.Version.Equals` ignores it. -/
structure SemVer where
  major : Nat
  minor : Nat
  patch : Nat
  pre : List String
deriving DecidableEq, Repr

/-- Whether a character list consists only of ASCII digits
(Go `containsOnly(s, numbers)`; vacuously true for the empty list). -/
def allDigits (cs : List Char) : Bool := cs.all Char.isDigit

/-- Go `hasLeadingZeroes`. -/
def hasLeadingZeroes (cs : List Char) : Bool :=
  decide (1 < cs.length) && cs.headD ' ' == '0'

/-- Decimal value of a digit list. -/
def digitsToNat (cs : List Char) : Nat :=
  cs.foldl (fun n c => n * 10 + (c.toNat - 48)) 0

/-- Parse a numeric version component: non-empty, digits only, no leading
zeroes, and within `uint64` range (Go `strconv.ParseUint(s, 10, 64)` after
the `containsOnly`/`hasLeadingZeroes` checks). -/
def parseNumPart (cs : List Char) : Option Nat :=
  if cs.isEmpty then none
  else if !allDigits cs then none
  else if hasLeadingZeroes cs then none
  else if digitsToNat cs < 18446744073709551616 then some (digitsToNat cs)
  else none

/-- Characters allowed in pre-release/build identifiers
(Go `alphanum` = letters, digits and `-`). -/
def isAlphanumDash (c : Char) : Bool := c.isAlpha || c.isDigit || c == '-'

/-- Validity of one pre-release identifier (Go `NewPRVersion`). -/
def validPRIdent (cs : List Char) : Bool :=
  !cs.isEmpty &&
    (if allDigits cs then
      !hasLeadingZeroes cs && decide (digitsToNat cs < 18446744073709551616)
    else cs.all isAlphanumDash)

/-- Validity of one build identifier (Go `NewBuildVersion`). -/
def validBuildIdent (cs : List Char) : Bool :=
  !cs.isEmpty && cs.all isAlphanumDash

/-- `strings.SplitN(s, ".", 3)`: at most three pieces, the third keeping any
further dots. -/
def splitN3Dots (cs : List Char) : List (List Char) :=
  match splitOnSep '.' cs with
  | a :: b :: c :: rest => [a, b, joinWithSep '.' (c :: rest)]
  | ps => ps

/-- Go `semver.Parse` on a full `major.minor.patch[-pre][+build]` string,
modelling version 3.5.1 of `blang/semver`. -/
def semverParse (cs : List Char) : Option SemVer :=
  if cs.isEmpty then none
  else
    match splitN3Dots cs with
    | [majS, minS, patchFull] =>
      match parseNumPart majS, parseNumPart minS with
      | some maj, some min =>
        -- build metadata is cut off first, then the pre-release part
        let (patchPre, build) := breakAtSep '+' patchFull
        let (patchS, pre) := breakAtSep '-' patchPre
        let buildParts := (build.map (splitOnSep '.')).getD []
        let preParts := (pre.map (splitOnSep '.')).getD []
        match parseNumPart patchS with
        | some patch =>
          if buildParts.all validBuildIdent && preParts.all validPRIdent then
            some ⟨maj, min, patch, (preParts.map String.mk)⟩
          else none
        | none => none
      | _, _ => none
    | _ => none

/-- Go `semver.ParseTolerant`: trims space, drops one leading `v`, pads a
short `major` or `major.minor` form with zeroes (rejecting pre-release/build
metadata in short forms), then parses. -/
def parseTolerant (s : String) : Option SemVer :=
  let cs := trimChars s.data
  let cs := if cs.headD ' ' == 'v' then cs.tail else cs
  let parts := splitOnSep '.' cs
  if parts.length < 3 then
    if (parts.getLastD []).any (fun c => c == '+' || c == '-') then none
    else semverParse (joinWithSep '.' (parts ++ List.replicate (3 - parts.length) ['0']))
  else semverParse cs

/-! ## The two competing plugin-version validators -/

/-- `ValidateVersion` of `pkg/plugin/validation.go` (the strict checker):
non-empty, tolerant-semver parseable, and equal to its own
`{Major, Minor}` truncation, i.e. no patch component and no pre-release
(`semver.Version.Equals` ignores build metadata).  Returns whether
validation succeeds; the error values carry no information used elsewhere. -/
def validateVersionStrict (version : String) : Bool :=
  if version == "" then false
  else
    match parseTolerant version with
    | none => false
    | some v => v.patch == 0 && v.pre == []

/-- `ValidateVersion` of the older `plugin` package (the tolerant checker):
non-empty and tolerant-semver parseable. -/
def validateVersionTolerant (version : String) : Bool :=
  if version == "" then false
  else (parseTolerant version).isSome

/-! ## Plugin model (`plugin.Base` with capability discovery)

A `plugin.Base` carries a name and a version; whether a plugin additionally
implements `InitPluginGetter` / `CreateAPIPluginGetter` /
`CreateWebhookPluginGetter` (discovered via Go type assertions) is embedded
as three capability flags. -/

structure PluginBase where
  name : String
  version : String
  isInitPluginGetter : Bool
  isCreateAPIPluginGetter : Bool
  isCreateWebhookPluginGetter : Bool
deriving DecidableEq, Repr

instance {ε α : Type} [DecidableEq ε] [DecidableEq α] : DecidableEq (Except ε α) := fun a b =>
  match a, b with
  | .ok x, .ok y => if h : x = y then .isTrue (by rw [h]) else .isFalse (by intro hc; cases hc; exact h rfl)
  | .error x, .error y => if h : x = y then .isTrue (by rw [h]) else .isFalse (by intro hc; cases hc; exact h rfl)
  | .ok _, .error _ => .isFalse (by intro hc; cases hc)
  | .error _, .ok _ => .isFalse (by intro hc; cases hc)

/-- Modelled from the spec: `shortName` is the portion of a plugin name
before the first dot (`GetShortName` is referenced by the resolver and the
CLI but its definition is not among the source files). -/
def GetShortName (name : String) : String :=
  String.mk (name.data.takeWhile (fun c => !(c == '.')))

/-- Modelled from the spec: a plugin key has the form `name/version`
(e.g. `go.kubebuilder.io/v2.0.0`); `SplitKey` splits a key fragment into
its name and version parts, the version being empty when the fragment has
no `/` (`SplitKey` is referenced by the resolver and its test but its
definition is not among the source files). -/
def SplitKey (key : String) : String × String :=
  match breakAtSep '/' key.data with
  | (n, none) => (String.mk n, "")
  | (n, some v) => (String.mk n, String.mk v)

/-- Modelled from the spec: `Key(name, version)` is the deterministic join
`name/v<version-without-leading-v>`; the one-argument form in the sources
(`path.Join(p.Name(), "v"+strings.TrimLeft(p.Version(), "v"))`) uses the
same formula. -/
def Key (name version : String) : String :=
  name ++ "/v" ++ String.mk (version.data.dropWhile (fun c => c == 'v'))

/-- `plugin.KeyFor`: the key of a plugin, from its name and version. -/
def KeyFor (p : PluginBase) : String := Key p.name p.version

/-- Go `%q` applied to a plain (escape-free) string. -/
def goQuote (s : String) : String := "\"" ++ s ++ "\""

/-- `strings.Join(ms, ", ")`. -/
def joinComma : List String → String
  | [] => ""
  | [m] => m
  | m :: ms => m ++ ", " ++ joinComma ms

/-- Space-separated join, as used by Go `%+q` inside the brackets. -/
def joinSpace : List String → String
  | [] => ""
  | [m] => m
  | m :: ms => m ++ " " ++ joinSpace ms

/-- Go `%+q` applied to a slice of plain strings: `["a" "b"]`. -/
def goQuoteSlice (xs : List String) : String :=
  "[" ++ joinSpace (xs.map goQuote) ++ "]"

/-! ## Plugin resolver (`resolvePluginsByKey`) -/

/-- `findPluginsMatchingName`: plugins whose full name equals `name`. -/
def findPluginsMatchingName (ps : List PluginBase) (name : String) : List PluginBase :=
  ps.filter (fun p => p.name == name)

/-- `findPluginsMatchingShortName`: plugins whose short name equals
`shortName`. -/
def findPluginsMatchingShortName (ps : List PluginBase) (shortName : String) : List PluginBase :=
  ps.filter (fun p => GetShortName p.name == shortName)

/-- The loop body of `findPluginsMatchingVersion`: partition the plugins
into those whose parsed version has equal major and minor components and
those matching on major only; `none` models the `must` panic on an
unparseable plugin version. -/
def findPluginsMatchingVersionAux (sv : SemVer) :
    List PluginBase → Option (List PluginBase × List PluginBase)
  | [] => some ([], [])
  | p :: rest =>
    match parseTolerant p.version with
    | none => none
    | some pv =>
      match findPluginsMatchingVersionAux sv rest with
      | none => none
      | some em =>
        if sv.major == pv.major then
          if sv.minor == pv.minor then some (p :: em.1, em.2)
          else some (em.1, p :: em.2)
        else some em

/-- `findPluginsMatchingVersion`: exact major+minor matches if any exist,
otherwise the major-only matches; `none` models the `must` panic on an
unparseable version. -/
def findPluginsMatchingVersion (ps : List PluginBase) (version : String) :
    Option (List PluginBase) :=
  match parseTolerant version with
  | none => none
  | some sv =>
    match findPluginsMatchingVersionAux sv ps with
    | none => none
    | some em => some (if em.1.isEmpty then em.2 else em.1)

/-- `resolvePluginsByKey`.  The outer `Option` models the `must` panics
(never reached on validated versions); the `Except` carries the two
ambiguity errors. -/
def resolvePluginsByKey (versionedPlugins : List PluginBase) (pluginKey : String) :
    Option (Except String (List PluginBase)) :=
  let nv := SplitKey pluginKey
  let name := nv.1
  let version := nv.2
  let shortName := GetShortName name
  let resolvedOpt := if version == "" then some versionedPlugins
                     else findPluginsMatchingVersion versionedPlugins version
  match resolvedOpt with
  | none => none
  | some resolved =>
    if resolved.isEmpty then
      some (.error ("ambiguous plugin version " ++ goQuote version ++ ": no versions match"))
    else
      let resolved2 := if name == shortName then findPluginsMatchingShortName resolved shortName
                       else findPluginsMatchingName resolved name
      if resolved2.isEmpty then
        some (.error ("ambiguous plugin name " ++ goQuote name ++ ": no names match"))
      else some (.ok resolved2)

/-! ## CLI plugin-key filtering (`filterPluginsByKeys`) -/

/-- The inner plugin scan of `filterPluginsByKeys` for one CLI key
`(pluginName, pluginVersion)`: returns the `definitelyMatch` additions and
the `maybeMatch` bucket for that key.  An exact name+version match stops
the scan (the Go loop `break`s), so the bucket keeps only plugins seen
before the exact match. -/
def scanKey (pluginName pluginVersion : String) : List PluginBase → List PluginBase × List PluginBase
  | [] => ([], [])
  | p :: rest =>
    let longName := p.name
    let shortName := GetShortName longName
    if pluginName == longName && pluginVersion == p.version then ([p], [])
    else if (pluginName == longName || pluginName == shortName) &&
            (pluginVersion == "" || pluginVersion == p.version) then
      let dm := scanKey pluginName pluginVersion rest
      (dm.1, p :: dm.2)
    else scanKey pluginName pluginVersion rest

/-- `filterPluginsByKeys`: match CLI-supplied plugin keys against the known
plugins; ambiguous buckets (several possible plugins for one key) produce
an aggregated error enumerating the candidates.  The CLI key map is an
association list iterated in order (the Go map iteration order is
arbitrary; theorems use single-key maps). -/
def filterPluginsByKeys (versionedPlugins : List PluginBase)
    (cliPluginKeys : List (String × String)) : Except String (List PluginBase) :=
  if cliPluginKeys.isEmpty then .ok versionedPlugins else
  let results := cliPluginKeys.map (fun kv => (Key kv.1 kv.2, scanKey kv.1 kv.2 versionedPlugins))
  let definitelyMatch := results.flatMap (fun r => r.2.1)
  let maybeMatch := (results.map (fun r => (r.1, r.2.2))).filter (fun b => !b.2.isEmpty)
  if maybeMatch.isEmpty then .ok definitelyMatch
  else
    let singles := (maybeMatch.filter (fun b => b.2.length == 1)).flatMap (fun b => b.2)
    let msgs := (maybeMatch.filter (fun b => !(b.2.length == 1))).map
      (fun b => goQuote b.1 ++ ": " ++ goQuoteSlice (b.2.map KeyFor))
    if msgs.isEmpty then .ok (definitelyMatch ++ singles)
    else .error ("ambiguous plugin keys, possible matches: " ++ joinComma msgs)

/-! ## CLI binders (`bindInit`, `bindCreateAPI`, `bindCreateWebhook`) -/

/-- Outcome of scanning a plugin list for a capability getter. -/
inductive GetterSearch where
  | missing
  | found (g : PluginBase)
  | dup (g p : PluginBase)
deriving DecidableEq, Repr

/-- The getter-scanning loop shared by `bindInit` and `bindCreateAPI`:
remembers the first plugin satisfying the capability and reports a
duplicate as soon as a second one is seen. -/
def findGetter (isGetter : PluginBase → Bool) : List PluginBase → Option PluginBase → GetterSearch
  | [], none => .missing
  | [], some g => .found g
  | p :: rest, acc =>
    if isGetter p then
      match acc with
      | some g => .dup g p
      | none => findGetter isGetter rest (some p)
    else findGetter isGetter rest acc

/-- Lexicographic byte order on strings (ASCII-faithful), used where Go
sorts map keys for rendering. -/
def lexLt : List Char → List Char → Bool
  | [], [] => false
  | [], _ :: _ => true
  | _ :: _, [] => false
  | a :: as, b :: bs =>
    if a.val < b.val then true
    else if b.val < a.val then false
    else lexLt as bs

/-- Insert into a key-sorted list of pairs. -/
def insertPairSorted (p : String × String) : List (String × String) → List (String × String)
  | [] => [p]
  | q :: rest => if lexLt p.1.data q.1.data then p :: q :: rest else q :: insertPairSorted p rest

/-- Sort an association list by key (insertion sort), as `fmt` does when
printing a Go map. -/
def sortPairsByKey (l : List (String × String)) : List (String × String) :=
  l.foldr insertPairSorted []

/-- Go `%q` applied to a `map[string]string`: `map["k":"v" ...]` with keys
in sorted order. -/
def goQuoteStringMap (kvs : List (String × String)) : String :=
  "map[" ++ joinSpace ((sortPairsByKey kvs).map (fun kv => goQuote kv.1 ++ ":" ++ goQuote kv.2)) ++ "]"

/-- The getter-resolution part of `bindInit` (the `log.Fatalf` calls are
modelled as returned errors; the subsequent flag/context wiring is outside
the claims). -/
def bindInit (projectVersion : String) (cliPluginKeys : List (String × String))
    (resolvedPlugins : List PluginBase) : Except String PluginBase :=
  match findGetter (fun p => p.isInitPluginGetter) resolvedPlugins none with
  | .dup g p => .error ("duplicate initialization plugins for project version " ++
      goQuote projectVersion ++ ": " ++ g.name ++ ", " ++ p.name)
  | .found g => .ok g
  | .missing =>
    if cliPluginKeys.isEmpty then
      .error ("project version " ++ goQuote projectVersion ++
        " does not support an initialization plugin")
    else
      .error ("plugin " ++ goQuoteStringMap cliPluginKeys ++
        " does not support an initialization plugin")

/-- The getter-resolution part of `bindCreateAPI` (errors are attached to
the command via `cmdErr`; the subsequent wiring is outside the claims). -/
def bindCreateAPI (projectVersion : String) (versionedPlugins : List PluginBase) :
    Except String PluginBase :=
  match findGetter (fun p => p.isCreateAPIPluginGetter) versionedPlugins none with
  | .dup g p => .error ("duplicate API creation plugins for project version " ++
      goQuote projectVersion ++ ": " ++ g.name ++ ", " ++ p.name)
  | .found g => .ok g
  | .missing => .error ("project version " ++ goQuote projectVersion ++
      " does not support an API creation plugin")

/-- `noGetterErr`: the error used by `bindCreateWebhook` when no plugin
exposes the capability.  Go iterates the CLI key map in arbitrary order;
the model keeps the association-list order (theorems use at most one
key). -/
def noGetterErr (projectVersion : String) (cliPluginKeys : List (String × String))
    (versionedPlugins : List PluginBase) : String :=
  if versionedPlugins.isEmpty && !cliPluginKeys.isEmpty then
    "no plugins found for CLI plugin keys " ++
      goQuoteSlice (cliPluginKeys.map (fun kv => Key kv.1 kv.2)) ++
      ", likely a naming discrepancy"
  else
    "no plugin found for project version " ++ goQuote projectVersion ++
      ", possible plugins: " ++ goQuoteSlice (versionedPlugins.map KeyFor)

/-- The getter-resolution part of `bindCreateWebhook`: unlike the other two
binders it stops at the *first* plugin exposing the capability and never
checks for duplicates. -/
def bindCreateWebhook (projectVersion : String) (cliPluginKeys : List (String × String))
    (versionedPlugins : List PluginBase) : Except String PluginBase :=
  match versionedPlugins.find? (fun p => p.isCreateWebhookPluginGetter) with
  | some g => .ok g
  | none => .error (noGetterErr projectVersion cliPluginKeys versionedPlugins)

/-! ## Version-match predicates used to state resolver properties -/

/-- The plugin's parsed version matches `sv` on major and minor. -/
def verEq (sv : SemVer) (p : PluginBase) : Bool :=
  match parseTolerant p.version with
  | some pv => sv.major == pv.major && sv.minor == pv.minor
  | none => false

/-- The plugin's parsed version matches `sv` on major but not minor. -/
def verMajOnly (sv : SemVer) (p : PluginBase) : Bool :=
  match parseTolerant p.version with
  | some pv => sv.major == pv.major && !(sv.minor == pv.minor)
  | none => false

/-- The plugin's parsed version matches `sv` on major. -/
def verMaj (sv : SemVer) (p : PluginBase) : Bool :=
  match parseTolerant p.version with
  | some pv => sv.major == pv.major
  | none => false

/-! ## C3: ambiguity surfacing in `filterPluginsByKeys` -/

/-- The key's name fragment matches the plugin's long or short name. -/
def nameFragMatch (n : String) (p : PluginBase) : Bool :=
  n == p.name || n == GetShortName p.name

/-! ## C5: binder capability uniqueness -/

/-! ## Marker-based insertion (`pkg/scaffold/v2/internal/string_utils.go`) -/

/-- One trailing carriage return is dropped from a scanned line
(`dropCR` inside Go `bufio.ScanLines`). -/
def dropCR (l : List Char) : List Char :=
  if l.getLast? = some '\r' then l.dropLast else l

/-- `bufio.Scanner` with `ScanLines`: split on `\n`, drop the final empty
piece produced by a trailing newline, strip one trailing `\r` per line; an
empty input yields no lines. -/
def scanLines (s : String) : List String :=
  if s.data.isEmpty then []
  else
    let ps := splitOnSep '\n' s.data
    let ps := if ps.getLast? = some [] then ps.dropLast else ps
    ps.map (fun l => String.mk (dropCR l))

/-- The in-place removal `markerAndValues[marker] = append(vals[:i], vals[i+1:]...)`
as seen through the shared backing array: elements after position `i`
shift left one place while the last array cell keeps its old value. -/
def removeShift (A : List String) (i : Nat) : List String :=
  A.take i ++ A.drop (i + 1) ++ A.getLast?.toList

/-- The `for i, val := range vals` loop of `filterExistingValues` for one
scanned line.  Go ranges over the original slice header (hence the fixed
fuel `vals.length`) while removals mutate the shared backing array, so
each index is read from the current array; the result is the final backing
array and whether any removal happened. -/
def filterLineLoop (line : String) : Nat → List String → Bool → Nat → List String × Bool
  | _, A, removed, 0 => (A, removed)
  | i, A, removed, fuel + 1 =>
    if trimSpace line == trimSpace (A.getD i "") then
      filterLineLoop line (i + 1) (removeShift A i) true fuel
    else
      filterLineLoop line (i + 1) A removed fuel

/-- Effect of one scanned line on one marker's value list inside
`filterExistingValues`: every removal stores a slice header one shorter
than the original, so the entry becomes the first `len - 1` cells of the
final backing array whenever anything was removed. -/
def filterLine (vals : List String) (line : String) : List String :=
  let r := filterLineLoop line 0 vals false vals.length
  if r.2 then r.1.take (vals.length - 1) else r.1

/-- `filterExistingValues`: for each scanned line (outer loop) and marker
(inner loop), remove single-line values already present in the content. -/
def filterExistingValues (lines : List String) (mv : List (String × List String)) :
    List (String × List String) :=
  lines.foldl (fun acc line => acc.map (fun p => (p.1, filterLine p.2 line))) mv

/-- The values written in front of one scanned line by `insertStrings`:
the concatenated values of every marker whose trimmed text equals the
trimmed line. -/
def insertionsFor (mv : List (String × List String)) (line : String) : List Char :=
  mv.flatMap (fun p => if trimSpace line == trimSpace p.1 then p.2.flatMap String.data else [])

/-- `insertStrings` (and `InsertStrings` on non-`.go` paths, whose extra
`goimports` formatting step is outside the model): filter already-present
values, then for every scanned line emit the matching markers' values
followed by the line and a newline. -/
def insertStrings (contents : String) (markerAndValues : List (String × List String)) : String :=
  String.mk ((scanLines contents).flatMap (fun line =>
    insertionsFor (filterExistingValues (scanLines contents) markerAndValues) line ++
      line.data ++ ['\n']))

/-- Rebuild a file from scanned lines, each followed by a newline. -/
def joinLines (ls : List String) : String :=
  String.mk (ls.flatMap (fun l => l.data ++ ['\n']))

/-- The line list produced by inserting the single-line fragment `fl` in
front of every line matching the marker. -/
def insertAtMarker (lines : List String) (m fl : String) : List String :=
  lines.flatMap (fun l => if trimSpace l == trimSpace m then [fl, l] else [l])

/-! ### Scanner lemmas -/

/-! ### Filtering and insertion lemmas -/

/-! ## Project configuration model (`pkg/model/config/config.go`)

`Marshal`/`Unmarshal` delegate byte-level YAML encoding to `sigs.k8s.io/yaml`
(which the spec treats as an external collaborator).  The model represents
marshalled bytes by the document's top-level key/value sequence: `[]`
stands for the empty byte sequence (the source turns the `"{}"`
empty-struct encoding into empty bytes), appending documents models the
byte-level `append`, and parsing a document into a Go map is modelled by
`mergeDoc` (later duplicate keys win, as in JSON decoding). -/

/-- A YAML-typed value (the Go `interface{}` universe of config fields). -/
inductive YValue where
  | str (s : String)
  | bool (b : Bool)
  | num (n : Nat)
  | list (xs : List YValue)
  | map (kvs : List (String × YValue))

/-- `GVK` of `pkg/model/config`. -/
structure GVK where
  group : String
  version : String
  kind : String
deriving DecidableEq, Repr

/-- `GVK.isEqualTo`. -/
def GVK.isEqualTo (r other : GVK) : Bool :=
  r.group == other.group && r.version == other.version && r.kind == other.kind

/-- `config.Config`: the versioned project configuration record. -/
structure Config where
  version : String
  domain : String
  repo : String
  resources : List GVK
  multigroup : Bool
  extraFields : List (String × YValue)

/-- `Config.IsV1`. -/
def Config.IsV1 (config : Config) : Bool := config.version == "1"

/-- `Config.IsV2`. -/
def Config.IsV2 (config : Config) : Bool := config.version == "2"

/-- `Config.HasResource`: v1 short-circuits to false; otherwise the target
is searched among the tracked resources by value equality. -/
def Config.HasResource (config : Config) (target : GVK) : Bool :=
  if config.IsV1 then false
  else config.resources.any (fun r => r.isEqualTo target)

/-- `Config.AddResource`: v1 short-circuits; an already-tracked resource is
not appended; otherwise the resource is appended and `true` returned.  The
Go method mutates its receiver, modelled by returning the new config. -/
def Config.AddResource (config : Config) (gvk : GVK) : Config × Bool :=
  if config.IsV1 then (config, false)
  else if config.HasResource gvk then (config, false)
  else (⟨config.version, config.domain, config.repo, config.resources ++ [gvk],
         config.multigroup, config.extraFields⟩, true)

/-- `yaml.Marshal` of one GVK: keys in alphabetical order, `omitempty`. -/
def marshalGVK (r : GVK) : YValue :=
  .map ((if r.group == "" then [] else [("group", .str r.group)]) ++
        (if r.kind == "" then [] else [("kind", .str r.kind)]) ++
        (if r.version == "" then [] else [("version", .str r.version)]))

/-- `yaml.Marshal` of the `Config` struct fields (JSON tags, alphabetical
key order, `omitempty`; `extraFields` carries `json:"-"` and is skipped). -/
def marshalCore (c : Config) : List (String × YValue) :=
  (if c.domain == "" then [] else [("domain", .str c.domain)]) ++
  (if c.multigroup then [("multigroup", .bool true)] else []) ++
  (if c.repo == "" then [] else [("repo", .str c.repo)]) ++
  (if c.resources.isEmpty then [] else [("resources", .list (c.resources.map marshalGVK))]) ++
  (if c.version == "" then [] else [("version", .str c.version)])

/-- Insert into a key-sorted YAML document. -/
def insertYSorted (p : String × YValue) : List (String × YValue) → List (String × YValue)
  | [] => [p]
  | q :: rest => if lexLt p.1.data q.1.data then p :: q :: rest else q :: insertYSorted p rest

/-- Sort a YAML document by key, as `yaml.Marshal` does for a Go map. -/
def sortYByKey (l : List (String × YValue)) : List (String × YValue) :=
  l.foldr insertYSorted []

/-- `Config.Marshal`: the struct encoding (empty bytes when every field is
omitted) followed, for non-v1 configs with extra fields, by the encoding
of the extra-fields map. -/
def Config.Marshal (c : Config) : List (String × YValue) :=
  let content := marshalCore c
  if !c.IsV1 && !c.extraFields.isEmpty then content ++ sortYByKey c.extraFields else content

/-- ASCII lower-casing, adequate for `strings.EqualFold` on the data the
config code handles. -/
def toLowerStr (s : String) : String := String.mk (s.data.map Char.toLower)

/-- `strings.EqualFold`, used by `mapstructure` when matching map keys to
struct fields. -/
def eqFold (a b : String) : Bool := toLowerStr a == toLowerStr b

/-- First value whose key fold-matches `name` (the `mapstructure` lookup;
after `mergeDoc` keys are unique, so first-match is the match). -/
def lookupFold : List (String × YValue) → String → Option YValue
  | [], _ => none
  | p :: rest, name => if eqFold p.1 name then some p.2 else lookupFold rest name

/-- Whether a key fold-matches one of the five `Config` struct fields
(such keys are consumed by `mapstructure` and do not reach `,remain`). -/
def isCoreKey (k : String) : Bool :=
  eqFold k "version" || eqFold k "domain" || eqFold k "repo" ||
  eqFold k "resources" || eqFold k "multigroup"

/-- Collapse duplicate keys, later occurrences winning, as JSON decoding
into a Go map does when a YAML document holds repeated keys. -/
def mergeDoc : List (String × YValue) → List (String × YValue)
  | [] => []
  | p :: rest =>
    if rest.any (fun q => q.1 == p.1) then mergeDoc rest
    else p :: mergeDoc rest

/-- Decode a string-typed struct field: absent keys keep the default,
non-string values fail (`mapstructure` without weak typing). -/
def yGetStrD (fields : List (String × YValue)) (name dflt : String) : Except String String :=
  match lookupFold fields name with
  | none => .ok dflt
  | some (.str s) => .ok s
  | some _ => .error ("cannot decode field " ++ name)

/-- Decode one resource entry into a `GVK`. -/
def decodeGVK : YValue → Except String GVK
  | .map kvs =>
    let fields := mergeDoc kvs
    match yGetStrD fields "group" "", yGetStrD fields "version" "", yGetStrD fields "kind" "" with
    | .ok g, .ok v, .ok k => .ok ⟨g, v, k⟩
    | .error e, _, _ => .error e
    | _, .error e, _ => .error e
    | _, _, .error e => .error e
  | _ => .error "cannot decode resource entry"

/-- Decode a resource list. -/
def decodeGVKs : List YValue → Except String (List GVK)
  | [] => .ok []
  | v :: rest =>
    match decodeGVK v, decodeGVKs rest with
    | .ok g, .ok gs => .ok (g :: gs)
    | .error e, _ => .error e
    | _, .error e => .error e

/-- Decode the `resources` struct field. -/
def decodeResources (dc : Config) (fields : List (String × YValue)) :
    Except String (List GVK) :=
  match lookupFold fields "resources" with
  | none => .ok dc.resources
  | some (.list xs) => decodeGVKs xs
  | some _ => .error "cannot decode field resources"

/-- Decode the `multigroup` struct field. -/
def decodeMultigroup (dc : Config) (fields : List (String × YValue)) :
    Except String Bool :=
  match lookupFold fields "multigroup" with
  | none => .ok dc.multigroup
  | some (.bool b) => .ok b
  | some _ => .error "cannot decode field multigroup"

/-- `mapstructure.Decode(fields, out)` into a config with the given
defaults: matched keys set the five struct fields, unmatched keys become
the `,remain` extra-field mapping. -/
def decodeConfigInto (dc : Config) (fields : List (String × YValue)) : Except String Config :=
  match yGetStrD fields "version" dc.version, yGetStrD fields "domain" dc.domain,
        yGetStrD fields "repo" dc.repo, decodeResources dc fields,
        decodeMultigroup dc fields with
  | .ok version, .ok domain, .ok repo, .ok resources, .ok multigroup =>
    .ok ⟨version, domain, repo, resources, multigroup,
      fields.filter (fun p => !isCoreKey p.1)⟩
  | .error e, _, _, _, _ => .error e
  | _, .error e, _, _, _ => .error e
  | _, _, .error e, _, _ => .error e
  | _, _, _, .error e, _ => .error e
  | _, _, _, _, .error e => .error e

/-- The zero `Config` that `Unmarshal`'s callers decode into. -/
def emptyConfig : Config := ⟨"", "", "", [], false, []⟩

/-- `Unmarshal`: parse the document into a field map, decode it with
`mapstructure`, and nil the extra fields of v1 configs. -/
def Unmarshal (input : List (String × YValue)) : Except String Config :=
  match decodeConfigInto emptyConfig (mergeDoc input) with
  | .error e => .error ("error decoding project configuration: " ++ e)
  | .ok out =>
    .ok (if out.IsV1 then ⟨out.version, out.domain, out.repo, out.resources, out.multigroup, []⟩
         else out)

/-- `Config.EncodeExtraFields`: v1 configs error out; otherwise the given
object (already a YAML field map after the marshal/unmarshal hop in the
source) is decoded into the receiver. -/
def Config.EncodeExtraFields (c : Config) (extraFieldsObj : List (String × YValue)) :
    Except String Config :=
  if c.IsV1 then .error "v1 project configs do not have extra fields"
  else decodeConfigInto c (mergeDoc extraFieldsObj)

/-- `Config.DecodeExtraFields`: v1 configs error out; otherwise the stored
extra fields are returned (the YAML marshal/unmarshal hop of the source is
the identity at the value level). -/
def Config.DecodeExtraFields (c : Config) : Except String (List (String × YValue)) :=
  if c.IsV1 then .error "v1 project configs do not have extra fields"
  else .ok c.extraFields

/-! ## C7: v1 short-circuit invariant -/

/-! ## C8: AddResource deduplication -/

/-! ## C6: Config marshal/unmarshal round trip -/

/-- No key occurs twice (Boolean, key list form). -/
def strKeysNodup : List String → Bool
  | [] => true
  | k :: rest => !(rest.any (fun x => x == k)) && strKeysNodup rest

/-- Keys strictly sorted in the byte order `yaml.Marshal` uses for maps. -/
def yKeysSortedStrict : List (String × YValue) → Bool
  | [] => true
  | [_] => true
  | p :: q :: rest => lexLt p.1.data q.1.data && yKeysSortedStrict (q :: rest)

/-! ## Theorems -/

theorem findPluginsMatchingVersionAux_eq (sv : SemVer) (ps : List PluginBase)
    (h : ∀ q ∈ ps, (parseTolerant q.version).isSome) :
    findPluginsMatchingVersionAux sv ps =
      some (ps.filter (verEq sv), ps.filter (verMajOnly sv)) := by
  induction ps with
  | nil => rfl
  | cons p rest ih =>
    obtain ⟨pv, hpv⟩ := Option.isSome_iff_exists.mp (h p (List.mem_cons_self p rest))
    have hrest := ih (fun q hq => h q (List.mem_cons_of_mem _ hq))
    by_cases h1 : sv.major == pv.major
    · by_cases h2 : sv.minor == pv.minor
      · simp [findPluginsMatchingVersionAux, hpv, hrest, List.filter_cons,
          verEq, verMajOnly, h1, h2]
      · simp [findPluginsMatchingVersionAux, hpv, hrest, List.filter_cons,
          verEq, verMajOnly, h1, h2]
    · simp [findPluginsMatchingVersionAux, hpv, hrest, List.filter_cons,
        verEq, verMajOnly, h1]

theorem findPluginsMatchingVersion_eq (ps : List PluginBase) (version : String) (sv : SemVer)
    (hv : parseTolerant version = some sv)
    (h : ∀ q ∈ ps, (parseTolerant q.version).isSome) :
    findPluginsMatchingVersion ps version =
      some (if (ps.filter (verEq sv)).isEmpty then ps.filter (verMajOnly sv)
            else ps.filter (verEq sv)) := by
  simp [findPluginsMatchingVersion, hv, findPluginsMatchingVersionAux_eq sv ps h]

/-- In a list whose plugin names are pairwise distinct, filtering by the
name of a member yields exactly that member. -/
theorem filter_nameEq_of_pairwise (l : List PluginBase) (p : PluginBase)
    (hnodup : l.Pairwise (fun a b => a.name ≠ b.name)) (hmem : p ∈ l) :
    l.filter (fun q => q.name == p.name) = [p] := by
  induction l with
  | nil => cases hmem
  | cons a rest ih =>
    rcases List.pairwise_cons.mp hnodup with ⟨ha, hrest⟩
    rcases List.mem_cons.mp hmem with rfl | hmem'
    · have hnil : rest.filter (fun q => q.name == p.name) = [] :=
        List.filter_eq_nil_iff.mpr (fun q hq h => (ha q hq) (eq_of_beq h).symm)
      simp [List.filter_cons, hnil]
    · have hne : (a.name == p.name) = false := beq_eq_false_iff_ne.mpr (ha p hmem')
      simp [List.filter_cons, hne, ih hrest hmem']

/-- C1 (amended): for a candidate set with pairwise-distinct names and
parseable versions, a key whose *fully-qualified* name (one containing a
dot, so that it differs from its own short form) and version exactly match
one candidate resolves to exactly that candidate with no error. -/
theorem resolvePluginsByKey_exact (vps : List PluginBase) (p : PluginBase) (key : String)
    (hmem : p ∈ vps)
    (hnodup : vps.Pairwise (fun a b => a.name ≠ b.name))
    (hparse : ∀ q ∈ vps, (parseTolerant q.version).isSome)
    (hsplit : SplitKey key = (p.name, p.version))
    (hfq : GetShortName p.name ≠ p.name) :
    resolvePluginsByKey vps key = some (.ok [p]) := by
  have hnameB : (p.name == GetShortName p.name) = false :=
    beq_eq_false_iff_ne.mpr (fun h => hfq h.symm)
  have hfilter := filter_nameEq_of_pairwise vps p hnodup hmem
  by_cases hv : p.version = ""
  · have hne : vps.isEmpty = false := by cases vps with
      | nil => cases hmem
      | cons a rest => rfl
    simp [resolvePluginsByKey, hsplit, hv, hne, hnameB, findPluginsMatchingName, hfilter]
  · obtain ⟨sv, hsv⟩ := Option.isSome_iff_exists.mp (hparse p hmem)
    have hvB : (p.version == "") = false := beq_eq_false_iff_ne.mpr hv
    have hpEq : verEq sv p := by simp [verEq, hsv]
    have hpE : p ∈ vps.filter (verEq sv) := List.mem_filter.mpr ⟨hmem, hpEq⟩
    have hEne : (vps.filter (verEq sv)).isEmpty = false := by
      cases hE : vps.filter (verEq sv) with
      | nil => rw [hE] at hpE; cases hpE
      | cons a rest => rfl
    have hEfilter : (vps.filter (verEq sv)).filter (fun q => q.name == p.name) = [p] :=
      filter_nameEq_of_pairwise _ p (hnodup.sublist (List.filter_sublist vps)) hpE
    simp [resolvePluginsByKey, hsplit, hvB,
      findPluginsMatchingVersion_eq vps p.version sv hsv hparse, hEne,
      hnameB, findPluginsMatchingName, hEfilter]

/-- Witness for C1's amended theorem at a concrete input. -/
theorem resolvePluginsByKey_exact_witness :
    resolvePluginsByKey
      [⟨"go.kubebuilder.io", "1.0", false, false, false⟩,
       ⟨"helm.example.com", "1.0", false, false, false⟩]
      "go.kubebuilder.io/1.0"
      = some (.ok [⟨"go.kubebuilder.io", "1.0", false, false, false⟩]) :=
  resolvePluginsByKey_exact _ ⟨"go.kubebuilder.io", "1.0", false, false, false⟩ _
    (by decide) (by decide) (by decide) (by decide) (by decide)

/-- C1 counterexample: with candidates `foo/1.0` and `foo.kubebuilder.io/1.0`
(no two of which share a `Name()`), the key `foo/1.0` exactly matches the
`(name, version)` pair of the first candidate only, yet `resolvePluginsByKey`
returns *both* candidates: the short name `foo` also matches
`foo.kubebuilder.io`'s short form. -/
theorem resolvePluginsByKey_exact_cex :
    (⟨"foo", "1.0", false, false, false⟩ : PluginBase).name ≠
      (⟨"foo.kubebuilder.io", "1.0", false, false, false⟩ : PluginBase).name ∧
    SplitKey "foo/1.0" = ("foo", "1.0") ∧
    ([⟨"foo", "1.0", false, false, false⟩,
      ⟨"foo.kubebuilder.io", "1.0", false, false, false⟩] : List PluginBase).filter
        (fun p => p.name == "foo" && p.version == "1.0")
      = [⟨"foo", "1.0", false, false, false⟩] ∧
    resolvePluginsByKey
      [⟨"foo", "1.0", false, false, false⟩,
       ⟨"foo.kubebuilder.io", "1.0", false, false, false⟩] "foo/1.0"
      = some (.ok [⟨"foo", "1.0", false, false, false⟩,
                   ⟨"foo.kubebuilder.io", "1.0", false, false, false⟩]) := by
  decide

/-- C2: with a non-empty key version, the resolver keeps exactly the
candidates matching the key's major and minor version; when none do, it
keeps exactly the major-only matches; when that too is empty, resolution
fails with the ambiguous-version error saying no versions match. -/
theorem findPluginsMatchingVersion_spec (vps : List PluginBase)
    (key name version : String) (sv : SemVer)
    (hsplit : SplitKey key = (name, version))
    (hne : version ≠ "")
    (hv : parseTolerant version = some sv)
    (hparse : ∀ q ∈ vps, (parseTolerant q.version).isSome) :
    (vps.filter (verEq sv) ≠ [] →
       findPluginsMatchingVersion vps version = some (vps.filter (verEq sv))) ∧
    (vps.filter (verEq sv) = [] →
       findPluginsMatchingVersion vps version = some (vps.filter (verMaj sv))) ∧
    (vps.filter (verMaj sv) = [] →
       resolvePluginsByKey vps key =
         some (.error ("ambiguous plugin version " ++ goQuote version ++
           ": no versions match"))) := by
  have hbase := findPluginsMatchingVersion_eq vps version sv hv hparse
  have hmajCong : vps.filter (verEq sv) = [] →
      vps.filter (verMajOnly sv) = vps.filter (verMaj sv) := by
    intro hE
    refine List.filter_congr (fun q hq => ?_)
    have hqE : verEq sv q = false := by
      by_contra hcon
      have : q ∈ vps.filter (verEq sv) :=
        List.mem_filter.mpr ⟨hq, by revert hcon; cases verEq sv q <;> simp⟩
      rw [hE] at this; cases this
    revert hqE
    unfold verEq verMajOnly verMaj
    cases parseTolerant q.version with
    | none => simp
    | some pv =>
      by_cases h1 : sv.major == pv.major <;> by_cases h2 : sv.minor == pv.minor <;>
        simp [h1, h2]
  refine ⟨fun hEne => ?_, fun hE => ?_, fun hM => ?_⟩
  · rw [hbase]
    simp [List.isEmpty_iff, hEne]
  · rw [hbase, hE, hmajCong hE]
    simp
  · have hE : vps.filter (verEq sv) = [] := by
      refine List.filter_eq_nil_iff.mpr (fun q hq => ?_)
      have hqM : verMaj sv q = false := by
        by_contra hcon
        have : q ∈ vps.filter (verMaj sv) :=
          List.mem_filter.mpr ⟨hq, by revert hcon; cases verMaj sv q <;> simp⟩
        rw [hM] at this; cases this
      revert hqM
      unfold verEq verMaj
      cases parseTolerant q.version with
      | none => simp
      | some pv => by_cases h1 : sv.major == pv.major <;> simp [h1]
    have hMO : vps.filter (verMajOnly sv) = [] := by rw [hmajCong hE, hM]
    have hvB : (version == "") = false := beq_eq_false_iff_ne.mpr hne
    simp [resolvePluginsByKey, hsplit, hvB, hbase, hE, hMO]

/-- Witness for C2 at a concrete input (the `foo/v3.0` case of the
resolver's own test table). -/
theorem findPluginsMatchingVersion_spec_witness :
    resolvePluginsByKey [⟨"foo.example.com", "1.0", false, false, false⟩] "foo/v3.0"
      = some (.error ("ambiguous plugin version " ++ goQuote "v3.0" ++
          ": no versions match")) :=
  (findPluginsMatchingVersion_spec [⟨"foo.example.com", "1.0", false, false, false⟩]
    "foo/v3.0" "foo" "v3.0" ⟨3, 0, 0, []⟩
    (by decide) (by decide) (by decide) (by decide)).2.2 (by decide)

theorem scanKey_noVersion (n : String) (ps : List PluginBase)
    (hver : ∀ p ∈ ps, p.version ≠ "") :
    scanKey n "" ps = ([], ps.filter (nameFragMatch n)) := by
  induction ps with
  | nil => rfl
  | cons p rest ih =>
    have hv : ("" == p.version) = false := by
      cases hc : ("" == p.version)
      · rfl
      · exact absurd (eq_of_beq hc).symm (hver p (List.mem_cons_self p rest))
    have hrest := ih (fun q hq => hver q (List.mem_cons_of_mem _ hq))
    by_cases hm : (n == p.name || n == GetShortName p.name) = true
    · simp [scanKey, hv, hm, hrest, List.filter_cons, nameFragMatch]
    · simp [scanKey, hv, hm, hrest, List.filter_cons, nameFragMatch,
        Bool.not_eq_true _ ▸ hm]

/-- C3: a user-supplied plugin-key name fragment that matches two or more
plugins (among them two with different full names) makes
`filterPluginsByKeys` fail with the aggregated ambiguity error that
enumerates the keys of every matching candidate. -/
theorem filterPluginsByKeys_ambiguous (vps : List PluginBase) (n : String)
    (hver : ∀ p ∈ vps, p.version ≠ "")
    (hlen : 2 ≤ (vps.filter (nameFragMatch n)).length)
    (_hdiff : ∃ p ∈ vps.filter (nameFragMatch n),
       ∃ q ∈ vps.filter (nameFragMatch n), p.name ≠ q.name) :
    filterPluginsByKeys vps [(n, "")] =
      .error ("ambiguous plugin keys, possible matches: " ++ goQuote (Key n "") ++
        ": " ++ goQuoteSlice ((vps.filter (nameFragMatch n)).map KeyFor)) := by
  have hscan := scanKey_noVersion n vps hver
  have hFne : ((vps.filter (nameFragMatch n)).isEmpty) = false := by
    cases hF : vps.filter (nameFragMatch n) with
    | nil => rw [hF] at hlen; cases hlen
    | cons a rest => rfl
  have hF1 : ((vps.filter (nameFragMatch n)).length == 1) = false := by
    cases hF : vps.filter (nameFragMatch n) with
    | nil => rw [hF] at hlen; cases hlen
    | cons a rest =>
      cases rest with
      | nil => rw [hF] at hlen; cases hlen with
        | step h => cases h
      | cons b rest2 => simp
  simp [filterPluginsByKeys, hscan, hFne, hF1, joinComma, String.append_assoc]

/-- Witness for C3 at a concrete input: the short fragment `foo` matches
two plugins with different full names, and the error lists both keys. -/
theorem filterPluginsByKeys_ambiguous_witness :
    filterPluginsByKeys
      [⟨"foo.example.com", "1.0", false, false, false⟩,
       ⟨"foo.kubebuilder.io", "1.0", false, false, false⟩] [("foo", "")]
      = .error ("ambiguous plugin keys, possible matches: " ++ goQuote (Key "foo" "") ++
          ": " ++ goQuoteSlice
            (([⟨"foo.example.com", "1.0", false, false, false⟩,
               ⟨"foo.kubebuilder.io", "1.0", false, false, false⟩] :
                List PluginBase).filter (nameFragMatch "foo") |>.map KeyFor)) :=
  filterPluginsByKeys_ambiguous
    [⟨"foo.example.com", "1.0", false, false, false⟩,
     ⟨"foo.kubebuilder.io", "1.0", false, false, false⟩] "foo"
    (by decide) (by decide)
    ⟨⟨"foo.example.com", "1.0", false, false, false⟩, by decide,
     ⟨"foo.kubebuilder.io", "1.0", false, false, false⟩, by decide, by decide⟩

/-- C3 counterexample: for the *versioned* key `foo/1.0` against candidates
`foo.example.com/1.0` and `foo/1.0` — a name fragment matching two plugins
with materially different full names — `filterPluginsByKeys` does not fail:
the first candidate lands in the `maybeMatch` bucket before the exact match
`break`s the scan, the singleton bucket is promoted, and *both* matches are
returned with no error. -/
theorem filterPluginsByKeys_ambiguous_cex :
    nameFragMatch "foo" ⟨"foo.example.com", "1.0", false, false, false⟩ = true ∧
    nameFragMatch "foo" ⟨"foo", "1.0", false, false, false⟩ = true ∧
    ("foo.example.com" : String) ≠ "foo" ∧
    filterPluginsByKeys
      [⟨"foo.example.com", "1.0", false, false, false⟩,
       ⟨"foo", "1.0", false, false, false⟩] [("foo", "1.0")]
      = .ok [⟨"foo", "1.0", false, false, false⟩,
             ⟨"foo.example.com", "1.0", false, false, false⟩] := by
  decide

theorem findGetter_eq (g : PluginBase → Bool) (ps : List PluginBase) :
    (∀ a, findGetter g ps (some a) =
        match ps.filter g with
        | [] => .found a
        | p :: _ => .dup a p) ∧
    findGetter g ps none =
        match ps.filter g with
        | [] => .missing
        | [p] => .found p
        | p :: q :: _ => .dup p q := by
  induction ps with
  | nil => exact ⟨fun a => rfl, rfl⟩
  | cons p rest ih =>
    by_cases hp : g p
    · refine ⟨fun a => ?_, ?_⟩
      · simp [findGetter, hp, List.filter_cons]
      · have h1 := ih.1 p
        simp only [findGetter, hp, if_true, List.filter_cons]
        rw [h1]
        cases rest.filter g <;> simp
    · refine ⟨fun a => ?_, ?_⟩
      · simp [findGetter, hp, List.filter_cons, ih.1 a]
      · simp [findGetter, hp, List.filter_cons, ih.2]

theorem find?_eq_head_filter (g : PluginBase → Bool) (ps : List PluginBase) :
    ps.find? g = (ps.filter g).head? := by
  induction ps with
  | nil => rfl
  | cons p rest ih =>
    cases hp : g p
    · rw [List.find?_cons_of_neg _ (by simp [hp]), List.filter_cons_of_neg (by simp [hp]), ih]
    · rw [List.find?_cons_of_pos _ (by simp [hp]), List.filter_cons_of_pos (by simp [hp])]
      rfl

/-- C5 (amended): binding behaviour of the three subcommand binders as a
function of the plugins exposing the relevant getter capability.  `bindInit`
and `bindCreateAPI` enforce uniqueness: zero getters is a configuration
error (for `bindInit` its message names the project version only when no
`--plugins` keys were supplied, and names the keys otherwise), two or more
getters is a duplicate-plugins error naming the first two offenders.
`bindCreateWebhook` does not: it binds the first getter found and errors
(via `noGetterErr`) only when there is none. -/
theorem bind_capability_uniqueness (projectVersion : String)
    (cliPluginKeys : List (String × String)) (ps : List PluginBase) :
    (ps.filter (fun q => q.isCreateAPIPluginGetter) = [] →
       bindCreateAPI projectVersion ps = .error ("project version " ++ goQuote projectVersion ++
         " does not support an API creation plugin")) ∧
    (∀ g, ps.filter (fun q => q.isCreateAPIPluginGetter) = [g] →
       bindCreateAPI projectVersion ps = .ok g) ∧
    (∀ g q rest, ps.filter (fun q => q.isCreateAPIPluginGetter) = g :: q :: rest →
       bindCreateAPI projectVersion ps =
         .error ("duplicate API creation plugins for project version " ++
           goQuote projectVersion ++ ": " ++ g.name ++ ", " ++ q.name)) ∧
    (ps.filter (fun q => q.isInitPluginGetter) = [] → cliPluginKeys = [] →
       bindInit projectVersion cliPluginKeys ps = .error ("project version " ++
         goQuote projectVersion ++ " does not support an initialization plugin")) ∧
    (ps.filter (fun q => q.isInitPluginGetter) = [] → cliPluginKeys ≠ [] →
       bindInit projectVersion cliPluginKeys ps = .error ("plugin " ++
         goQuoteStringMap cliPluginKeys ++ " does not support an initialization plugin")) ∧
    (∀ g, ps.filter (fun q => q.isInitPluginGetter) = [g] →
       bindInit projectVersion cliPluginKeys ps = .ok g) ∧
    (∀ g q rest, ps.filter (fun q => q.isInitPluginGetter) = g :: q :: rest →
       bindInit projectVersion cliPluginKeys ps =
         .error ("duplicate initialization plugins for project version " ++
           goQuote projectVersion ++ ": " ++ g.name ++ ", " ++ q.name)) ∧
    (ps.filter (fun q => q.isCreateWebhookPluginGetter) = [] →
       bindCreateWebhook projectVersion cliPluginKeys ps =
         .error (noGetterErr projectVersion cliPluginKeys ps)) ∧
    (∀ g rest, ps.filter (fun q => q.isCreateWebhookPluginGetter) = g :: rest →
       bindCreateWebhook projectVersion cliPluginKeys ps = .ok g) := by
  refine ⟨fun h => ?_, fun g h => ?_, fun g q rest h => ?_, fun h hk => ?_, fun h hk => ?_,
    fun g h => ?_, fun g q rest h => ?_, fun h => ?_, fun g rest h => ?_⟩
  · simp [bindCreateAPI, (findGetter_eq _ ps).2, h]
  · simp [bindCreateAPI, (findGetter_eq _ ps).2, h]
  · simp [bindCreateAPI, (findGetter_eq _ ps).2, h]
  · simp [bindInit, (findGetter_eq _ ps).2, h, hk]
  · have hke : cliPluginKeys.isEmpty = false := by
      cases cliPluginKeys with
      | nil => exact absurd rfl hk
      | cons a rest => rfl
    simp [bindInit, (findGetter_eq _ ps).2, h, hke]
  · simp [bindInit, (findGetter_eq _ ps).2, h]
  · simp [bindInit, (findGetter_eq _ ps).2, h]
  · simp [bindCreateWebhook, find?_eq_head_filter, h]
  · simp [bindCreateWebhook, find?_eq_head_filter, h]

/-- Witness for C5's amended theorem: a duplicate CreateAPI capability is
reported naming both offending plugins. -/
theorem bind_capability_uniqueness_witness :
    bindCreateAPI "2"
      [⟨"a.example.com", "1.0", false, true, false⟩,
       ⟨"b.example.com", "1.0", false, true, false⟩]
      = .error ("duplicate API creation plugins for project version " ++ goQuote "2" ++
          ": " ++ "a.example.com" ++ ", " ++ "b.example.com") :=
  (bind_capability_uniqueness "2" []
    [⟨"a.example.com", "1.0", false, true, false⟩,
     ⟨"b.example.com", "1.0", false, true, false⟩]).2.2.1
    ⟨"a.example.com", "1.0", false, true, false⟩
    ⟨"b.example.com", "1.0", false, true, false⟩ [] (by decide)

/-- C5 counterexample: two plugins expose the CreateWebhook getter, yet
`bindCreateWebhook` silently binds the first instead of producing a
duplicate-plugins error. -/
theorem bind_capability_uniqueness_cex :
    (⟨"w1.example.com", "1.0", false, false, true⟩ : PluginBase).isCreateWebhookPluginGetter = true ∧
    (⟨"w2.example.com", "1.0", false, false, true⟩ : PluginBase).isCreateWebhookPluginGetter = true ∧
    bindCreateWebhook "2" []
      [⟨"w1.example.com", "1.0", false, false, true⟩,
       ⟨"w2.example.com", "1.0", false, false, true⟩]
      = .ok ⟨"w1.example.com", "1.0", false, false, true⟩ := by
  decide

theorem strData_append (a b : String) : (a ++ b).data = a.data ++ b.data := rfl

theorem strMk_data (s : String) : String.mk s.data = s := rfl

theorem splitOnSep_ne_nil (sep : Char) (cs : List Char) : splitOnSep sep cs ≠ [] := by
  cases cs with
  | nil => simp [splitOnSep]
  | cons c rest =>
    simp only [splitOnSep]
    by_cases hc : (c == sep) = true
    · simp [hc]
    · simp only [hc]
      cases h : splitOnSep sep rest <;> simp

theorem splitOnSep_append_cons (sep : Char) (xs ys : List Char) (h : sep ∉ xs) :
    splitOnSep sep (xs ++ sep :: ys) = xs :: splitOnSep sep ys := by
  induction xs with
  | nil => simp [splitOnSep]
  | cons c rest ih =>
    have hc : (c == sep) = false :=
      beq_eq_false_iff_ne.mpr (fun hcs => h (hcs ▸ List.mem_cons_self c rest))
    have hrest : sep ∉ rest := fun hm => h (List.mem_cons_of_mem _ hm)
    simp [splitOnSep, hc, ih hrest]

theorem mem_splitOnSep_not_mem (sep : Char) (cs : List Char) :
    ∀ l ∈ splitOnSep sep cs, sep ∉ l := by
  induction cs with
  | nil =>
    intro l hl
    simp only [splitOnSep, List.mem_singleton] at hl
    subst hl; simp
  | cons c rest ih =>
    intro l hl
    by_cases hc : (c == sep) = true
    · simp only [splitOnSep, hc, if_true, List.mem_cons] at hl
      rcases hl with rfl | hl
      · simp
      · exact ih l hl
    · obtain ⟨x, xs, hx⟩ : ∃ x xs, splitOnSep sep rest = x :: xs := by
        cases h : splitOnSep sep rest with
        | nil => exact absurd h (splitOnSep_ne_nil sep rest)
        | cons x xs => exact ⟨x, xs, rfl⟩
      simp only [splitOnSep, hc, if_false, hx, List.mem_cons] at hl
      cases hl with
      | head =>
        intro hmem
        rcases List.mem_cons.mp hmem with heq | hmem'
        · exact hc (by simp [heq])
        · exact ih x (hx ▸ List.mem_cons_self x xs) hmem'
      | tail _ hl2 => exact ih l (hx ▸ List.mem_cons_of_mem x hl2)

theorem flatMap_data_eq (ls : List String) (c : Char) :
    (ls.map String.data).flatMap (fun d => d ++ [c]) = ls.flatMap (fun l => l.data ++ [c]) := by
  induction ls with
  | nil => rfl
  | cons l rest ih => simp [ih]

theorem splitOnSep_flat (sep : Char) (ls : List (List Char)) (hne : ls ≠ [])
    (h : ∀ l ∈ ls, sep ∉ l) :
    splitOnSep sep (ls.flatMap (fun l => l ++ [sep])) = ls ++ [[]] := by
  induction ls with
  | nil => cases hne rfl
  | cons l rest ih =>
    cases rest with
    | nil =>
      have h1 : l ++ [sep] = l ++ sep :: [] := rfl
      simp only [List.flatMap_cons, List.flatMap_nil, List.append_nil, h1]
      rw [splitOnSep_append_cons sep l [] (h l (List.mem_cons_self l []))]
      rfl
    | cons l2 rest2 =>
      have hrest : (l2 :: rest2 : List (List Char)) ≠ [] := by simp
      have hmem : ∀ x ∈ l2 :: rest2, sep ∉ x := fun x hx => h x (List.mem_cons_of_mem _ hx)
      have hstep : (l :: l2 :: rest2).flatMap (fun x => x ++ [sep])
          = l ++ sep :: ((l2 :: rest2).flatMap (fun x => x ++ [sep])) := by
        simp [List.flatMap_cons]
      rw [hstep, splitOnSep_append_cons sep l _ (h l (List.mem_cons_self l _)), ih hrest hmem]
      rfl

theorem dropCR_eq_self (l : List Char) (h : l.getLast? ≠ some '\r') : dropCR l = l := by
  simp [dropCR, h]

theorem scanLines_joinLines (ls : List String)
    (h : ∀ l ∈ ls, '\n' ∉ l.data ∧ l.data.getLast? ≠ some '\r') :
    scanLines (joinLines ls) = ls := by
  cases ls with
  | nil => rfl
  | cons l0 rest =>
    have hsplit : splitOnSep '\n' ((l0 :: rest).flatMap (fun l => l.data ++ ['\n']))
        = ((l0 :: rest).map String.data) ++ [[]] := by
      rw [← flatMap_data_eq]
      exact splitOnSep_flat '\n' ((l0 :: rest).map String.data) (by simp)
        (fun d hd => by
          obtain ⟨l, hl, rfl⟩ := List.mem_map.mp hd
          exact (h l hl).1)
    have hne : ((l0 :: rest).flatMap (fun l => l.data ++ ['\n'])).isEmpty = false := by
      have : (l0 :: rest).flatMap (fun l => l.data ++ ['\n'])
          = l0.data ++ ['\n'] ++ rest.flatMap (fun l => l.data ++ ['\n']) := by
        simp [List.flatMap_cons]
      rw [this]
      cases hd : l0.data ++ ['\n'] ++ rest.flatMap (fun l => l.data ++ ['\n']) with
      | nil => simp at hd
      | cons a b => rfl
    show scanLines (String.mk _) = _
    unfold scanLines
    simp only [strMk_data, hne, Bool.false_eq_true, if_false, hsplit]
    rw [List.getLast?_concat, if_pos rfl, List.dropLast_concat, List.map_map]
    rw [List.map_congr_left (fun l hl => ?_), List.map_id]
    show String.mk (dropCR l.data) = l
    rw [dropCR_eq_self l.data (h l hl).2, strMk_data]

theorem scanLines_no_nl (s : String) : ∀ l ∈ scanLines s, '\n' ∉ l.data := by
  intro l hl
  unfold scanLines at hl
  by_cases he : s.data.isEmpty
  · simp [he] at hl
  · simp only [he, Bool.false_eq_true, if_false] at hl
    set ps := splitOnSep '\n' s.data with hps
    have hsubset : ∀ x ∈ (if ps.getLast? = some [] then ps.dropLast else ps), x ∈ ps := by
      intro x hx
      by_cases hlast : ps.getLast? = some []
      · rw [if_pos hlast] at hx
        exact List.dropLast_subset ps hx
      · rw [if_neg hlast] at hx
        exact hx
    obtain ⟨x, hx, rfl⟩ := List.mem_map.mp hl
    intro hmem
    have hxps : x ∈ ps := hsubset x hx
    have hnl : '\n' ∉ x := mem_splitOnSep_not_mem '\n' s.data x hxps
    have : '\n' ∈ x := by
      have hd : (String.mk (dropCR x)).data = dropCR x := rfl
      rw [hd] at hmem
      by_cases hcr : x.getLast? = some '\r'
      · exact List.dropLast_subset x (by rwa [dropCR, if_pos hcr] at hmem)
      · rwa [dropCR, if_neg hcr] at hmem
    exact hnl this

theorem filterLine_nil (line : String) : filterLine [] line = [] := rfl

theorem filterLine_single (f line : String) :
    filterLine [f] line = if trimSpace line == trimSpace f then [] else [f] := by
  by_cases h : (trimSpace line == trimSpace f) = true
  · simp [filterLine, filterLineLoop, removeShift, h]
  · simp [filterLine, filterLineLoop, removeShift, h]

theorem filterExistingValues_emptyVals (lines : List String) (m : String) :
    filterExistingValues lines [(m, [])] = [(m, [])] := by
  induction lines with
  | nil => rfl
  | cons l rest ih =>
    show filterExistingValues rest [(m, filterLine [] l)] = [(m, [])]
    rw [filterLine_nil]
    exact ih

theorem filterExistingValues_single (lines : List String) (m f : String) :
    filterExistingValues lines [(m, [f])] =
      [(m, if lines.any (fun l => trimSpace l == trimSpace f) then [] else [f])] := by
  induction lines with
  | nil => rfl
  | cons l rest ih =>
    by_cases h : (trimSpace l == trimSpace f) = true
    · show filterExistingValues rest [(m, filterLine [f] l)] = _
      rw [filterLine_single, if_pos h, filterExistingValues_emptyVals]
      simp [List.any_cons, h]
    · show filterExistingValues rest [(m, filterLine [f] l)] = _
      rw [filterLine_single, if_neg h, ih]
      simp [List.any_cons, h]

theorem flatMap_insertionsFor_empty (ls : List String) (m : String) :
    ls.flatMap (fun line => insertionsFor [(m, [])] line ++ line.data ++ ['\n'])
      = ls.flatMap (fun l => l.data ++ ['\n']) := by
  induction ls with
  | nil => rfl
  | cons l rest ih =>
    by_cases hm : (trimSpace l == trimSpace m) = true
    · simp [insertionsFor, hm, ih]
    · simp [insertionsFor, hm, ih]

theorem insertStrings_present (contents m f : String)
    (h : (scanLines contents).any (fun l => trimSpace l == trimSpace f) = true) :
    insertStrings contents [(m, [f])] = joinLines (scanLines contents) := by
  unfold insertStrings joinLines
  rw [filterExistingValues_single, if_pos h]
  exact congrArg String.mk (flatMap_insertionsFor_empty (scanLines contents) m)

theorem insertAtMarker_cons (l : String) (rest : List String) (m fl : String) :
    insertAtMarker (l :: rest) m fl =
      (if trimSpace l == trimSpace m then [fl, l] else [l]) ++ insertAtMarker rest m fl := by
  simp [insertAtMarker]

theorem data_append_nl (fl : String) : (fl ++ "\n").data = fl.data ++ ['\n'] :=
  strData_append fl "\n"

theorem flatMap_insert_eq (ls : List String) (m fl : String) :
    ls.flatMap (fun line => insertionsFor [(m, [fl ++ "\n"])] line ++ line.data ++ ['\n'])
      = (insertAtMarker ls m fl).flatMap (fun l => l.data ++ ['\n']) := by
  induction ls with
  | nil => rfl
  | cons l rest ih =>
    rw [List.flatMap_cons, ih, insertAtMarker_cons, List.flatMap_append]
    by_cases hm : (trimSpace l == trimSpace m) = true
    · rw [if_pos hm]
      have hins : insertionsFor [(m, [fl ++ "\n"])] l = (fl ++ "\n").data := by
        simp [insertionsFor, beq_iff_eq.mp hm]
      rw [hins, data_append_nl]
      simp
    · rw [if_neg hm]
      have ht : ¬(trimSpace l = trimSpace m) := fun hh => hm (beq_iff_eq.mpr hh)
      have hins : insertionsFor [(m, [fl ++ "\n"])] l = [] := by
        simp [insertionsFor, ht]
      rw [hins]
      simp

theorem insertStrings_absent (contents m fl : String)
    (h : (scanLines contents).any
        (fun l => trimSpace l == trimSpace (fl ++ "\n")) = false) :
    insertStrings contents [(m, [fl ++ "\n"])] =
      joinLines (insertAtMarker (scanLines contents) m fl) := by
  unfold insertStrings joinLines
  rw [filterExistingValues_single, if_neg (by simp [h])]
  exact congrArg String.mk (flatMap_insert_eq (scanLines contents) m fl)

theorem mem_insertAtMarker (ls : List String) (m fl l : String)
    (h : l ∈ insertAtMarker ls m fl) : l = fl ∨ l ∈ ls := by
  obtain ⟨a, ha, hl⟩ := List.mem_flatMap.mp h
  by_cases hm : (trimSpace a == trimSpace m) = true
  · rw [if_pos hm] at hl
    simp only [List.mem_cons, List.mem_singleton] at hl
    rcases hl with h1 | h2
    · exact Or.inl h1
    · rcases h2 with h2 | h3
      · exact Or.inr (h2 ▸ ha)
      · cases h3
  · rw [if_neg hm] at hl
    simp only [List.mem_singleton] at hl
    exact Or.inr (hl ▸ ha)

theorem countP_insertAtMarker (ls : List String) (m fl : String) (q : String → Bool)
    (hfl : q fl = true) :
    (insertAtMarker ls m fl).countP q
      = ls.countP q + ls.countP (fun l => trimSpace l == trimSpace m) := by
  induction ls with
  | nil => rfl
  | cons l rest ih =>
    rw [insertAtMarker_cons, List.countP_append, ih]
    by_cases hm : (trimSpace l == trimSpace m) = true
    · rw [if_pos hm]
      simp [List.countP_cons, hfl, hm]
      omega
    · rw [if_neg hm]
      simp [List.countP_cons, hm]
      omega

theorem dropTailWS_append_ws (cs : List Char) (c : Char) (hc : goIsSpace c = true) :
    dropTailWS (cs ++ [c]) = dropTailWS cs := by
  simp [dropTailWS, List.reverse_append, List.dropWhile, hc]

theorem trimSpace_append_nl (s : String) : trimSpace (s ++ "\n") = trimSpace s := by
  unfold trimSpace trimChars
  rw [strData_append]
  show String.mk ((dropTailWS (s.data ++ ['\n'])).dropWhile goIsSpace) = _
  rw [dropTailWS_append_ws s.data '\n' (by decide)]

/-- C4 (amended): for a single-line, newline-terminated fragment (no inner
newline, no trailing carriage return) and a file whose scanned lines do
not end in carriage returns, contain the marker on exactly one line, and
contain the fragment's trimmed text on at most one line, inserting the
fragment at the marker yields a file with exactly one line carrying the
fragment's text, and re-running the insertion leaves the file unchanged. -/
theorem insertStrings_idempotent (contents marker fl : String)
    (hnl : '\n' ∉ fl.data)
    (hcr : fl.data.getLast? ≠ some '\r')
    (hlinescr : ∀ l ∈ scanLines contents, l.data.getLast? ≠ some '\r')
    (hmarker : (scanLines contents).countP
        (fun l => trimSpace l == trimSpace marker) = 1)
    (honce : (scanLines contents).countP
        (fun l => trimSpace l == trimSpace (fl ++ "\n")) ≤ 1) :
    ((scanLines (insertStrings contents [(marker, [fl ++ "\n"])])).countP
        (fun l => trimSpace l == trimSpace (fl ++ "\n")) = 1) ∧
    insertStrings (insertStrings contents [(marker, [fl ++ "\n"])]) [(marker, [fl ++ "\n"])]
      = insertStrings contents [(marker, [fl ++ "\n"])] := by
  have hlines_nl := scanLines_no_nl contents
  have hlines_ok : ∀ l ∈ scanLines contents,
      '\n' ∉ l.data ∧ l.data.getLast? ≠ some '\r' :=
    fun l hl => ⟨hlines_nl l hl, hlinescr l hl⟩
  cases hpres : (scanLines contents).any (fun l => trimSpace l == trimSpace (fl ++ "\n")) with
  | true =>
    -- the fragment is already present: no insertion happens
    have hout : insertStrings contents [(marker, [fl ++ "\n"])]
        = joinLines (scanLines contents) := insertStrings_present contents marker _ hpres
    have hlines2 : scanLines (insertStrings contents [(marker, [fl ++ "\n"])])
        = scanLines contents := by rw [hout, scanLines_joinLines _ hlines_ok]
    have hcount : (scanLines contents).countP
        (fun l => trimSpace l == trimSpace (fl ++ "\n")) = 1 := by
      obtain ⟨l, hl, hql⟩ := List.any_eq_true.mp hpres
      have hpos : 0 < (scanLines contents).countP
          (fun l => trimSpace l == trimSpace (fl ++ "\n")) :=
        List.countP_pos_iff.mpr ⟨l, hl, hql⟩
      omega
    refine ⟨by rw [hlines2]; exact hcount, ?_⟩
    rw [insertStrings_present _ marker _ (by rw [hlines2]; exact hpres), hlines2, hout]
  | false =>
    have hout : insertStrings contents [(marker, [fl ++ "\n"])]
        = joinLines (insertAtMarker (scanLines contents) marker fl) :=
      insertStrings_absent contents marker fl hpres
    have hL2_ok : ∀ l ∈ insertAtMarker (scanLines contents) marker fl,
        '\n' ∉ l.data ∧ l.data.getLast? ≠ some '\r' := by
      intro l hl
      rcases mem_insertAtMarker _ _ _ _ hl with rfl | hl2
      · exact ⟨hnl, hcr⟩
      · exact hlines_ok l hl2
    have hlines2 : scanLines (insertStrings contents [(marker, [fl ++ "\n"])])
        = insertAtMarker (scanLines contents) marker fl := by
      rw [hout, scanLines_joinLines _ hL2_ok]
    have hzero : (scanLines contents).countP
        (fun l => trimSpace l == trimSpace (fl ++ "\n")) = 0 := by
      by_contra hne
      obtain ⟨l, hl, hql⟩ := List.countP_pos_iff.mp (Nat.pos_of_ne_zero hne)
      have : (scanLines contents).any (fun l => trimSpace l == trimSpace (fl ++ "\n")) = true :=
        List.any_eq_true.mpr ⟨l, hl, hql⟩
      rw [hpres] at this
      cases this
    have hflq : (trimSpace fl == trimSpace (fl ++ "\n")) = true := by
      rw [trimSpace_append_nl]
      exact beq_self_eq_true _
    have hcount2 : (insertAtMarker (scanLines contents) marker fl).countP
        (fun l => trimSpace l == trimSpace (fl ++ "\n")) = 1 := by
      rw [countP_insertAtMarker (scanLines contents) marker fl
        (fun l => trimSpace l == trimSpace (fl ++ "\n")) hflq, hzero, hmarker]
    refine ⟨by rw [hlines2]; exact hcount2, ?_⟩
    have hpres2 : (scanLines (insertStrings contents [(marker, [fl ++ "\n"])])).any
        (fun l => trimSpace l == trimSpace (fl ++ "\n")) = true := by
      rw [hlines2]
      exact List.any_eq_true.mpr
        (by
          obtain ⟨l, hl, hql⟩ := List.countP_pos_iff.mp (by rw [hcount2]; exact Nat.one_pos)
          exact ⟨l, hl, hql⟩)
    rw [insertStrings_present _ marker _ hpres2, hlines2, hout]

/-- Witness for C4's amended theorem at a concrete input. -/
theorem insertStrings_idempotent_witness :
    ((scanLines (insertStrings "M\nx\n" [("M", ["bar" ++ "\n"])])).countP
        (fun l => trimSpace l == trimSpace ("bar" ++ "\n")) = 1) ∧
    insertStrings (insertStrings "M\nx\n" [("M", ["bar" ++ "\n"])]) [("M", ["bar" ++ "\n"])]
      = insertStrings "M\nx\n" [("M", ["bar" ++ "\n"])] :=
  insertStrings_idempotent "M\nx\n" "M" "bar"
    (by decide) (by decide) (by decide) (by decide) (by decide)

/-- C4 counterexample: inserting the *multi-line* fragment `"a\nb\n"` below
marker `MARKER` is not idempotent — a second application inserts the
fragment again (the presence filter only recognises single-line values),
so the fragment does not appear exactly once after inserting twice. -/
theorem insertStrings_idempotent_cex :
    insertStrings "MARKER\n" [("MARKER", ["a\nb\n"])] = "a\nb\nMARKER\n" ∧
    insertStrings (insertStrings "MARKER\n" [("MARKER", ["a\nb\n"])])
        [("MARKER", ["a\nb\n"])] = "a\nb\na\nb\nMARKER\n" ∧
    insertStrings (insertStrings "MARKER\n" [("MARKER", ["a\nb\n"])])
        [("MARKER", ["a\nb\n"])]
      ≠ insertStrings "MARKER\n" [("MARKER", ["a\nb\n"])] := by
  decide

/-- C10: a fragment whose trimmed text coincides with the trimmed text of
*any* line of the file (related to the marker or not) is removed from the
insertion set before scanning — and then nothing at all is inserted; a
fragment matching no line survives the filter, and in particular a
fragment whose trimmed text spans several lines is never filtered. -/
theorem filterExistingValues_spec (contents marker frag : String) :
    ((∃ l ∈ scanLines contents, trimSpace l = trimSpace frag) →
       filterExistingValues (scanLines contents) [(marker, [frag])] = [(marker, [])] ∧
       insertStrings contents [(marker, [frag])] = joinLines (scanLines contents)) ∧
    ((∀ l ∈ scanLines contents, trimSpace l ≠ trimSpace frag) →
       filterExistingValues (scanLines contents) [(marker, [frag])] = [(marker, [frag])]) ∧
    ('\n' ∈ (trimSpace frag).data →
       filterExistingValues (scanLines contents) [(marker, [frag])] = [(marker, [frag])]) := by
  have hnonl : ∀ l ∈ scanLines contents, '\n' ∉ (trimSpace l).data := by
    intro l hl hmem
    refine scanLines_no_nl contents l hl ?_
    have h1 : (trimSpace l).data = trimChars l.data := rfl
    rw [h1] at hmem
    have h2 : trimChars l.data ⊆ l.data := by
      intro x hx
      have h3 : x ∈ dropTailWS l.data := (List.dropWhile_sublist _).subset hx
      have h4 : x ∈ (l.data.reverse.dropWhile goIsSpace) := by
        rw [← List.mem_reverse]
        exact h3
      have h5 : x ∈ l.data.reverse := (List.dropWhile_sublist _).subset h4
      rwa [List.mem_reverse] at h5
    exact h2 hmem
  have habsent : (∀ l ∈ scanLines contents, trimSpace l ≠ trimSpace frag) →
      filterExistingValues (scanLines contents) [(marker, [frag])] = [(marker, [frag])] := by
    intro hnone
    have hany : (scanLines contents).any (fun x => trimSpace x == trimSpace frag) = false := by
      rw [List.any_eq_false]
      exact fun l hl h => hnone l hl (beq_iff_eq.mp h)
    rw [filterExistingValues_single, if_neg (by simp [hany])]
  refine ⟨fun ⟨l, hl, hq⟩ => ?_, habsent, fun hmulti => habsent ?_⟩
  · have hany : (scanLines contents).any (fun x => trimSpace x == trimSpace frag) = true :=
      List.any_eq_true.mpr ⟨l, hl, beq_iff_eq.mpr hq⟩
    exact ⟨by rw [filterExistingValues_single, if_pos hany],
      insertStrings_present contents marker frag hany⟩
  · intro l hl heq
    exact hnonl l hl (heq ▸ hmulti)

/-- Witness for C10 at a concrete input: the fragment `"  x  \n"`
trim-matches the unrelated existing line `x`, so it is dropped from the
insertion set and nothing is inserted although the marker `M` is there. -/
theorem filterExistingValues_spec_witness :
    filterExistingValues (scanLines "x\nM\n") [("M", ["  x  \n"])] = [("M", [])] ∧
    insertStrings "x\nM\n" [("M", ["  x  \n"])] = joinLines (scanLines "x\nM\n") :=
  (filterExistingValues_spec "x\nM\n" "M" "  x  \n").1 ⟨"x", by decide, by decide⟩

/-- C10 counterexample: with *two* values under one marker both trim-matching
the existing line `x`, the in-place removal
`markerAndValues[marker] = append(vals[:i], vals[i+1:]...)` — computed from
the original slice header while the range loop reads the mutated backing
array — shrinks the stored slice by only one, so the single-line fragment
`" x \n"`, whose trimmed text equals that of the existing line, survives the
filter and *is* inserted at the marker. -/
theorem filterExistingValues_spec_cex :
    trimSpace "x\n" = trimSpace "x" ∧
    trimSpace " x \n" = trimSpace "x" ∧
    filterExistingValues (scanLines "x\nM\n") [("M", ["x\n", " x \n"])]
      = [("M", [" x \n"])] ∧
    insertStrings "x\nM\n" [("M", ["x\n", " x \n"])] = "x\n x \nM\n" := by
  decide

/-- C7: on a v1 config `AddResource` returns false leaving the resources
unchanged, `HasResource` is false for every GVK, `EncodeExtraFields` and
`DecodeExtraFields` return errors (leaving the pure-model config and
output untouched), and `Unmarshal` nils the extra fields of any config it
decodes as v1. -/
theorem v1_short_circuit (c : Config) (hv1 : c.version = "1") :
    (∀ gvk, c.AddResource gvk = (c, false)) ∧
    (∀ gvk, c.HasResource gvk = false) ∧
    (∀ obj, c.EncodeExtraFields obj = .error "v1 project configs do not have extra fields") ∧
    (c.DecodeExtraFields = .error "v1 project configs do not have extra fields") ∧
    (∀ doc c', Unmarshal doc = .ok c' → c'.IsV1 = true → c'.extraFields = []) := by
  have hb : c.IsV1 = true := by simp [Config.IsV1, hv1]
  refine ⟨fun gvk => ?_, fun gvk => ?_, fun obj => ?_, ?_, fun doc c' hu hv => ?_⟩
  · simp [Config.AddResource, hb]
  · simp [Config.HasResource, hb]
  · simp [Config.EncodeExtraFields, hb]
  · simp [Config.DecodeExtraFields, hb]
  · unfold Unmarshal at hu
    cases hd : decodeConfigInto emptyConfig (mergeDoc doc) with
    | error e => rw [hd] at hu; cases hu
    | ok out =>
      rw [hd] at hu
      dsimp only at hu
      by_cases ho : out.IsV1 = true
      · rw [if_pos ho] at hu
        cases hu
        rfl
      · rw [if_neg ho] at hu
        cases hu
        exact absurd hv ho

/-- Witness for C7 at a concrete v1 config. -/
theorem v1_short_circuit_witness :
    (⟨"1", "example.com", "repo", [], false, []⟩ : Config).AddResource ⟨"g", "v", "K"⟩
      = (⟨"1", "example.com", "repo", [], false, []⟩, false) ∧
    (⟨"1", "example.com", "repo", [], false, []⟩ : Config).HasResource ⟨"g", "v", "K"⟩ = false ∧
    (⟨"1", "example.com", "repo", [], false, []⟩ : Config).EncodeExtraFields
        [("foo", .str "bar")] = .error "v1 project configs do not have extra fields" ∧
    (⟨"1", "example.com", "repo", [], false, []⟩ : Config).DecodeExtraFields
      = .error "v1 project configs do not have extra fields" :=
  ⟨(v1_short_circuit _ rfl).1 ⟨"g", "v", "K"⟩,
   (v1_short_circuit _ rfl).2.1 ⟨"g", "v", "K"⟩,
   (v1_short_circuit _ rfl).2.2.1 [("foo", .str "bar")],
   (v1_short_circuit _ rfl).2.2.2.1⟩

/-- C8 (amended): on a non-v1 config that does not yet track the GVK, the
first `AddResource` appends it and returns true, after which `HasResource`
reports it as tracked and a second `AddResource` returns false leaving the
resource list unchanged. -/
theorem addResource_dedup (c : Config) (gvk : GVK)
    (hnv1 : c.IsV1 = false)
    (hnew : c.HasResource gvk = false) :
    (c.AddResource gvk).2 = true ∧
    (c.AddResource gvk).1.resources = c.resources ++ [gvk] ∧
    (c.AddResource gvk).1.HasResource gvk = true ∧
    (c.AddResource gvk).1.AddResource gvk = ((c.AddResource gvk).1, false) := by
  have hstep : c.AddResource gvk =
      (⟨c.version, c.domain, c.repo, c.resources ++ [gvk], c.multigroup, c.extraFields⟩, true) := by
    rw [Config.AddResource, if_neg (by simp [hnv1]), if_neg (by simp [hnew])]
  have hv1' : (⟨c.version, c.domain, c.repo, c.resources ++ [gvk], c.multigroup,
      c.extraFields⟩ : Config).IsV1 = false := hnv1
  have hself : gvk.isEqualTo gvk = true := by simp [GVK.isEqualTo]
  have hhas : (⟨c.version, c.domain, c.repo, c.resources ++ [gvk], c.multigroup,
      c.extraFields⟩ : Config).HasResource gvk = true := by
    rw [Config.HasResource, if_neg (by simp [hv1'])]
    simp [List.any_append, hself]
  refine ⟨by rw [hstep], by rw [hstep], by rw [hstep]; exact hhas, ?_⟩
  rw [hstep]
  rw [Config.AddResource, if_neg (by simp [hv1']), if_pos (by simp [hhas])]

/-- Witness for C8's amended theorem at a concrete input. -/
theorem addResource_dedup_witness :
    ((⟨"2", "example.com", "", [], false, []⟩ : Config).AddResource
        ⟨"ship", "v1beta1", "Frigate"⟩).2 = true ∧
    ((⟨"2", "example.com", "", [], false, []⟩ : Config).AddResource
        ⟨"ship", "v1beta1", "Frigate"⟩).1.resources = [] ++ [⟨"ship", "v1beta1", "Frigate"⟩] ∧
    ((⟨"2", "example.com", "", [], false, []⟩ : Config).AddResource
        ⟨"ship", "v1beta1", "Frigate"⟩).1.HasResource ⟨"ship", "v1beta1", "Frigate"⟩ = true ∧
    ((⟨"2", "example.com", "", [], false, []⟩ : Config).AddResource
        ⟨"ship", "v1beta1", "Frigate"⟩).1.AddResource ⟨"ship", "v1beta1", "Frigate"⟩
      = (((⟨"2", "example.com", "", [], false, []⟩ : Config).AddResource
          ⟨"ship", "v1beta1", "Frigate"⟩).1, false) :=
  addResource_dedup ⟨"2", "example.com", "", [], false, []⟩ ⟨"ship", "v1beta1", "Frigate"⟩
    rfl rfl

/-- C8 counterexample: on a (non-v1) config already tracking the GVK, the
first `AddResource` call returns false and leaves the tracked list
unchanged, so adding the same GVK twice does not grow the list by exactly
one entry with the first call returning true. -/
theorem addResource_dedup_cex :
    ((⟨"2", "", "", [⟨"ship", "v1", "Frigate"⟩], false, []⟩ : Config).IsV1 = false) ∧
    (⟨"2", "", "", [⟨"ship", "v1", "Frigate"⟩], false, []⟩ : Config).AddResource
        ⟨"ship", "v1", "Frigate"⟩
      = (⟨"2", "", "", [⟨"ship", "v1", "Frigate"⟩], false, []⟩, false) :=
  ⟨rfl, rfl⟩

theorem sortYByKey_sorted_id (l : List (String × YValue))
    (h : yKeysSortedStrict l = true) : sortYByKey l = l := by
  induction l with
  | nil => rfl
  | cons p rest ih =>
    cases rest with
    | nil => rfl
    | cons q rest2 =>
      have hparts := Bool.and_eq_true_iff.mp h
      show insertYSorted p (sortYByKey (q :: rest2)) = p :: q :: rest2
      rw [ih hparts.2]
      simp [insertYSorted, hparts.1]

theorem marshalCore_all_core (c : Config) :
    (marshalCore c).all (fun p => isCoreKey p.1) = true := by
  unfold marshalCore
  split_ifs <;> rfl

theorem marshalCore_keys_nodup (c : Config) :
    strKeysNodup ((marshalCore c).map Prod.fst) = true := by
  unfold marshalCore
  split_ifs <;> rfl

theorem lookupFold_core_version (c : Config) :
    lookupFold (marshalCore c) "version" =
      if c.version == "" then none else some (.str c.version) := by
  unfold marshalCore
  split_ifs <;> rfl

theorem lookupFold_core_domain (c : Config) :
    lookupFold (marshalCore c) "domain" =
      if c.domain == "" then none else some (.str c.domain) := by
  unfold marshalCore
  split_ifs <;> rfl

theorem lookupFold_core_repo (c : Config) :
    lookupFold (marshalCore c) "repo" =
      if c.repo == "" then none else some (.str c.repo) := by
  unfold marshalCore
  split_ifs <;> rfl

theorem lookupFold_core_resources (c : Config) :
    lookupFold (marshalCore c) "resources" =
      if c.resources.isEmpty then none
      else some (.list (c.resources.map marshalGVK)) := by
  unfold marshalCore
  split_ifs <;> rfl

theorem lookupFold_core_multigroup (c : Config) :
    lookupFold (marshalCore c) "multigroup" =
      if c.multigroup then some (.bool true) else none := by
  unfold marshalCore
  split_ifs <;> rfl

theorem lookupFold_append (l1 l2 : List (String × YValue)) (name : String) :
    lookupFold (l1 ++ l2) name =
      (match lookupFold l1 name with
       | some v => some v
       | none => lookupFold l2 name) := by
  induction l1 with
  | nil => rfl
  | cons p rest ih =>
    by_cases h : eqFold p.1 name = true
    · simp [lookupFold, h]
    · simp [lookupFold, h, ih]

theorem lookupFold_none (l : List (String × YValue)) (name : String)
    (h : ∀ p ∈ l, eqFold p.1 name = false) : lookupFold l name = none := by
  induction l with
  | nil => rfl
  | cons p rest ih =>
    simp [lookupFold, h p (List.mem_cons_self p rest),
      ih (fun q hq => h q (List.mem_cons_of_mem _ hq))]

theorem not_core_eqFold (k : String) (h : isCoreKey k = false) :
    eqFold k "version" = false ∧ eqFold k "domain" = false ∧ eqFold k "repo" = false ∧
    eqFold k "resources" = false ∧ eqFold k "multigroup" = false := by
  unfold isCoreKey at h
  simp only [Bool.or_eq_false_iff] at h
  exact ⟨h.1.1.1.1, h.1.1.1.2, h.1.1.2, h.1.2, h.2⟩

theorem pairwise_fst_of_strKeysNodup (l : List (String × YValue))
    (h : strKeysNodup (l.map Prod.fst) = true) :
    l.Pairwise (fun a b => a.1 ≠ b.1) := by
  induction l with
  | nil => exact List.Pairwise.nil
  | cons p rest ih =>
    simp only [List.map_cons, strKeysNodup, Bool.and_eq_true] at h
    refine List.Pairwise.cons (fun q hq heq => ?_) (ih h.2)
    have hmem : p.1 ∈ rest.map Prod.fst := heq ▸ List.mem_map_of_mem Prod.fst hq
    have hany : (rest.map Prod.fst).any (fun x => x == p.1) = false := by
      have h1 := h.1
      revert h1
      cases (rest.map Prod.fst).any (fun x => x == p.1) <;> simp
    rw [List.any_eq_false] at hany
    exact hany p.1 hmem (by simp)

theorem mergeDoc_of_pairwise (l : List (String × YValue))
    (h : l.Pairwise (fun a b => a.1 ≠ b.1)) : mergeDoc l = l := by
  induction l with
  | nil => rfl
  | cons p rest ih =>
    rcases List.pairwise_cons.mp h with ⟨hp, hrest⟩
    have hany : rest.any (fun q => q.1 == p.1) = false := by
      rw [List.any_eq_false]
      exact fun q hq hbeq => (hp q hq) (eq_of_beq hbeq).symm
    simp [mergeDoc, hany, ih hrest]

theorem decodeGVK_marshalGVK (r : GVK) : decodeGVK (marshalGVK r) = .ok r := by
  obtain ⟨g, v, k⟩ := r
  unfold marshalGVK
  cases hg : g == "" <;> cases hk : k == "" <;> cases hv : v == "" <;>
    (try (have hge := eq_of_beq hg; subst hge)) <;>
    (try (have hke := eq_of_beq hk; subst hke)) <;>
    (try (have hve := eq_of_beq hv; subst hve)) <;>
    rfl

theorem decodeGVKs_marshal (rs : List GVK) : decodeGVKs (rs.map marshalGVK) = .ok rs := by
  induction rs with
  | nil => rfl
  | cons r rest ih =>
    rw [List.map_cons]
    show (match decodeGVK (marshalGVK r), decodeGVKs (rest.map marshalGVK) with
      | .ok g, .ok gs => Except.ok (g :: gs)
      | .error e, _ => .error e
      | _, .error e => .error e) = _
    rw [decodeGVK_marshalGVK, ih]

/-- C6 (amended): for a version-2 config whose extra-field keys are in the
canonical sorted order, are unrepeated, and do not fold-match any of the
five core field names, `Unmarshal` after `Marshal` reproduces the config
field for field; and a config with every field empty marshals to the empty
byte sequence. -/
theorem config_marshal_roundtrip (c : Config)
    (hver : c.version = "2")
    (hsorted : yKeysSortedStrict c.extraFields = true)
    (hnodupE : strKeysNodup (c.extraFields.map Prod.fst) = true)
    (hdisj : c.extraFields.all (fun p => !isCoreKey p.1) = true) :
    Unmarshal (Config.Marshal c) = .ok c ∧
    Config.Marshal ⟨"", "", "", [], false, []⟩ = [] := by
  refine ⟨?_, rfl⟩
  obtain ⟨ver, dom, rep, res, mg, ext⟩ := c
  subst hver
  simp only at hsorted hnodupE hdisj
  -- facts about the extra fields
  have hdisjMem : ∀ p ∈ ext, isCoreKey p.1 = false := by
    intro p hp
    have := List.all_eq_true.mp hdisj p hp
    revert this
    cases isCoreKey p.1 <;> simp
  -- the marshalled document
  have hM : Config.Marshal ⟨"2", dom, rep, res, mg, ext⟩ =
      marshalCore ⟨"2", dom, rep, res, mg, ext⟩ ++ ext := by
    unfold Config.Marshal
    rw [sortYByKey_sorted_id ext hsorted]
    cases he : ext.isEmpty
    · simp [Config.IsV1, he]
    · simp [Config.IsV1, he, List.isEmpty_iff.mp he]
  set core := marshalCore ⟨"2", dom, rep, res, mg, ext⟩ with hcore
  -- merging is the identity: all keys are distinct
  have hpair : (core ++ ext).Pairwise (fun a b => a.1 ≠ b.1) := by
    rw [List.pairwise_append]
    refine ⟨pairwise_fst_of_strKeysNodup _ (marshalCore_keys_nodup _),
      pairwise_fst_of_strKeysNodup _ hnodupE, fun a ha b hb heq => ?_⟩
    have hac : isCoreKey a.1 = true := List.all_eq_true.mp (marshalCore_all_core _) a ha
    have hbc : isCoreKey b.1 = false := hdisjMem b hb
    rw [heq] at hac
    rw [hac] at hbc
    cases hbc
  have hmerge : mergeDoc (core ++ ext) = core ++ ext := mergeDoc_of_pairwise _ hpair
  -- the extra fields satisfy no core lookup
  have hextV : lookupFold ext "version" = none :=
    lookupFold_none _ _ (fun p hp => (not_core_eqFold p.1 (hdisjMem p hp)).1)
  have hextD : lookupFold ext "domain" = none :=
    lookupFold_none _ _ (fun p hp => (not_core_eqFold p.1 (hdisjMem p hp)).2.1)
  have hextR : lookupFold ext "repo" = none :=
    lookupFold_none _ _ (fun p hp => (not_core_eqFold p.1 (hdisjMem p hp)).2.2.1)
  have hextRs : lookupFold ext "resources" = none :=
    lookupFold_none _ _ (fun p hp => (not_core_eqFold p.1 (hdisjMem p hp)).2.2.2.1)
  have hextM : lookupFold ext "multigroup" = none :=
    lookupFold_none _ _ (fun p hp => (not_core_eqFold p.1 (hdisjMem p hp)).2.2.2.2)
  -- the five decoded fields
  have h1 : yGetStrD (core ++ ext) "version" "" = .ok "2" := by
    unfold yGetStrD
    rw [lookupFold_append, hcore, lookupFold_core_version]
    rfl
  have h2 : yGetStrD (core ++ ext) "domain" "" = .ok dom := by
    unfold yGetStrD
    rw [lookupFold_append, hcore, lookupFold_core_domain]
    dsimp only
    cases hd : dom == ""
    · rfl
    · rw [if_pos rfl, hextD, eq_of_beq hd]
  have h3 : yGetStrD (core ++ ext) "repo" "" = .ok rep := by
    unfold yGetStrD
    rw [lookupFold_append, hcore, lookupFold_core_repo]
    dsimp only
    cases hr : rep == ""
    · rfl
    · rw [if_pos rfl, hextR, eq_of_beq hr]
  have h4 : lookupFold (core ++ ext) "resources" =
      (if res.isEmpty then none else some (.list (res.map marshalGVK))) := by
    rw [lookupFold_append, hcore, lookupFold_core_resources]
    dsimp only
    cases hre : res.isEmpty
    · rfl
    · rw [hextRs]
      rfl
  have h5 : lookupFold (core ++ ext) "multigroup" =
      (if mg then some (.bool true) else none) := by
    rw [lookupFold_append, hcore, lookupFold_core_multigroup]
    dsimp only
    cases mg
    · rw [hextM]
      rfl
    · rfl
  -- the remaining keys are exactly the extra fields
  have h6 : (core ++ ext).filter (fun p => !isCoreKey p.1) = ext := by
    rw [List.filter_append]
    have hc : core.filter (fun p => !isCoreKey p.1) = [] := by
      refine List.filter_eq_nil_iff.mpr (fun p hp => ?_)
      simp [List.all_eq_true.mp (marshalCore_all_core _) p hp]
    have he : ext.filter (fun p => !isCoreKey p.1) = ext := by
      refine List.filter_eq_self.mpr (fun p hp => ?_)
      simp [hdisjMem p hp]
    rw [hc, he, List.nil_append]
  -- the two structured fields decode back to themselves
  have hresE : decodeResources emptyConfig (core ++ ext) = Except.ok res := by
    unfold decodeResources
    rw [h4]
    cases hre : res.isEmpty
    · show decodeGVKs (res.map marshalGVK) = Except.ok res
      exact decodeGVKs_marshal res
    · show Except.ok emptyConfig.resources = Except.ok res
      rw [List.isEmpty_iff.mp hre]
      rfl
  have hmgE : decodeMultigroup emptyConfig (core ++ ext) = Except.ok mg := by
    unfold decodeMultigroup
    rw [h5]
    cases mg
    · rfl
    · rfl
  -- assemble the decode
  have hdec : decodeConfigInto emptyConfig (core ++ ext)
      = .ok ⟨"2", dom, rep, res, mg, ext⟩ := by
    unfold decodeConfigInto
    rw [show emptyConfig.version = "" from rfl, show emptyConfig.domain = "" from rfl,
      show emptyConfig.repo = "" from rfl, h1, h2, h3, hresE, hmgE]
    dsimp only
    rw [h6]
  rw [hM]
  unfold Unmarshal
  rw [hmerge, hdec]
  rfl

/-- Witness for C6's amended theorem at a concrete config with resources
and extra fields. -/
theorem config_marshal_roundtrip_witness :
    Unmarshal (Config.Marshal ⟨"2", "example.com", "github.com/example/project",
        [⟨"ship", "v1beta1", "Frigate"⟩], true, [("foo", .str "bar")]⟩)
      = .ok ⟨"2", "example.com", "github.com/example/project",
        [⟨"ship", "v1beta1", "Frigate"⟩], true, [("foo", .str "bar")]⟩ :=
  (config_marshal_roundtrip _ rfl (by decide) (by decide) (by decide)).1

/-- C6 counterexample: a version-2 config whose extra fields contain the
key `domain` is not reproduced field for field by `Unmarshal ∘ Marshal` —
the duplicate key makes the decoded `Domain` take the extra field's value
and the extra-field mapping is lost. -/
theorem config_marshal_roundtrip_cex :
    (⟨"2", "example.com", "", [], false, [("domain", .str "x")]⟩ : Config).IsV2 = true ∧
    (⟨"2", "example.com", "", [], false, [("domain", .str "x")]⟩ : Config).domain
      = "example.com" ∧
    (match Unmarshal (Config.Marshal
        ⟨"2", "example.com", "", [], false, [("domain", .str "x")]⟩) with
     | .ok c => c.domain
     | .error _ => "unmarshal error") = "x" ∧
    ("x" : String) ≠ "example.com" := by
  refine ⟨rfl, rfl, rfl, by decide⟩

/-- C9: Plugin version validation: `ValidateVersion` accepts `"1"`,
`"v1.2"` and `"3"` and rejects `""` and `"abc"`; the strict checker
(major+minor only) additionally rejects the patch-bearing `"1.2.3"`, while
the tolerant checker accepts it — both validators exist side by side. -/
theorem validateVersion_spec :
    validateVersionTolerant "1" = true ∧
    validateVersionTolerant "v1.2" = true ∧
    validateVersionTolerant "3" = true ∧
    validateVersionTolerant "" = false ∧
    validateVersionTolerant "abc" = false ∧
    validateVersionTolerant "1.2.3" = true ∧
    validateVersionStrict "1" = true ∧
    validateVersionStrict "v1.2" = true ∧
    validateVersionStrict "3" = true ∧
    validateVersionStrict "" = false ∧
    validateVersionStrict "abc" = false ∧
    validateVersionStrict "1.2.3" = false := by
  decide

end KB
